import Mathlib

/-!
Verification development for the code-analysis core of the repository
(`source_processing/enhanced_code_analyzer.py` and
`context_management/code_context_graph.py`).

The Python source is shallowly embedded: regex-driven extraction is modelled
as deterministic scanners over `List Char` (the regexes used by the source
are deterministic: their character classes at choice points are disjoint, so
no backtracking can change the outcome), Python dicts are modelled as
insertion-ordered association lists, and `networkx.DiGraph` is modelled as a
record of node and edge association lists.  All definitions are executable.

Modelling notes that apply throughout:
* Python `re` is used by the source on ASCII program text; `\w` is modelled
  as ASCII alphanumeric-or-underscore and `\s` as the six ASCII whitespace
  characters.
* `str.count(sub)` counts non-overlapping occurrences; every pattern the
  source counts ends in a space and has no nonempty border, so occurrences
  can never overlap and the plain position count used here coincides with it.
* Fields of the extracted records that no claim refers to (docstrings,
  structured parameter lists, signatures, return types) are omitted from the
  embedded records; every field that is kept is computed exactly as in the
  source.
-/

namespace CodingAssistant

/-- ASCII model of the Python regex class `\w` (`[A-Za-z0-9_]`). -/
def isWordChar (c : Char) : Bool :=
  c.isAlpha || c.isDigit || c == '_'

/-- ASCII model of the Python regex class `\s`. -/
def isPySpace (c : Char) : Bool :=
  c == ' ' || c == '\t' || c == '\n' || c == '\r' || c == '\x0b' || c == '\x0c'

/-- Number of positions of `s` at which `pat` occurs (model of Python
`s.count(pat)` for the overlap-free patterns counted by the source). -/
def countSub (pat : List Char) : List Char → Nat
  | [] => 0
  | c :: rest => (if pat.isPrefixOf (c :: rest) then 1 else 0) + countSub pat rest

/-- Match a literal character sequence at the head of the input, returning
the remainder on success. -/
def stripLit : List Char → List Char → Option (List Char)
  | [], cs => some cs
  | _ :: _, [] => none
  | l :: ls, c :: cs => if c == l then stripLit ls cs else none

/-- Model of the lazy capture `(.*?)(?<=})` under `re.DOTALL`: the shortest
match ends at the first closing brace, so the capture is everything up to and
including the first `\x7d` of the input (failing when there is none).
Returns the capture and the remainder. -/
def splitAfterBrace : List Char → Option (List Char × List Char)
  | [] => none
  | c :: rest =>
    if c == '\x7d' then some ([c], rest)
    else (splitAfterBrace rest).map (fun p => (c :: p.1, p.2))

/-- Depth-balanced brace capture.  Modelled from the spec: section 4.2 demands
that brace-body capture "must correctly handle nested braces" via "a
depth-balanced scanner, not a single greedy/lazy regex"; no such scanner
exists in the source, which uses the lazy regex modelled by
`splitAfterBrace`.  Given the text following an opening brace, this returns
the body up to and including the brace that closes it. -/
def balancedBodyCapture (cs : List Char) : Option (List Char) :=
  go 1 cs
where
  /-- Scan at the given nesting depth (the opening brace already consumed). -/
  go : Nat → List Char → Option (List Char)
    | _, [] => none
    | depth, c :: rest =>
      if c == '\x7d' then
        if depth == 1 then some [c]
        else (go (depth - 1) rest).map (fun b => c :: b)
      else if c == '\x7b' then (go (depth + 1) rest).map (fun b => c :: b)
      else (go depth rest).map (fun b => c :: b)

namespace JavaScriptCodeParser

/-- Function record built by `JavaScriptCodeParser.parse_and_analyze`
(lines 721-731 / 750-760 of `enhanced_code_analyzer.py`); `parameters`,
`return_type`, `docstring` and `signature` are omitted (no claim uses them).
-/
structure FunctionInfo where
  name : String
  line_start : Nat
  line_end : Nat
  calls : List String
  complexity : Nat
  deriving DecidableEq, Repr

/-- Class record built by lines 788-796; `methods`, `properties` and
`docstring` are omitted (no claim uses them). -/
structure ClassInfo where
  name : String
  line_start : Nat
  line_end : Nat
  superclasses : List String
  deriving DecidableEq, Repr

/-- Result of `parse_and_analyze` (lines 800-811). -/
structure FileAnalysis where
  functions : List FunctionInfo
  classes : List ClassInfo
  error : Option String
  deriving DecidableEq, Repr

/-- One match of the function-declaration regex
`function\s+(\w+)\s*\(([^)]*)\)\s*\x7b(.*?)(?<=\x7d)` (line 675):
match span `[startPos, endPos)`, the captured name, parameter text and body.
-/
structure RawMatch where
  startPos : Nat
  endPos : Nat
  name : List Char
  params : List Char
  body : List Char
  deriving DecidableEq, Repr

/-- Attempt the function-declaration regex at the head of the input; on
success return the captures and the unconsumed remainder.  The regex is
deterministic: `\s+`/`\w+` are greedy over disjoint classes, `[^)]*` stops at
the first `)`, and the lazy tail is `splitAfterBrace`. -/
def matchFunctionAt (cs : List Char) : Option (List Char × List Char × List Char × List Char) :=
  match stripLit "function".toList cs with
  | none => none
  | some cs1 =>
    match cs1 with
    | [] => none
    | c1 :: cs2 =>
      if isPySpace c1 then
        match cs2.dropWhile isPySpace with
        | [] => none
        | c2 :: cs3 =>
          if isWordChar c2 then
            match (cs3.dropWhile isWordChar).dropWhile isPySpace with
            | '(' :: cs4 =>
              match cs4.dropWhile (fun c => !(c == ')')) with
              | ')' :: cs5 =>
                match cs5.dropWhile isPySpace with
                | '\x7b' :: cs6 =>
                  match splitAfterBrace cs6 with
                  | some (body, rest) =>
                    some (c2 :: cs3.takeWhile isWordChar,
                      cs4.takeWhile (fun c => !(c == ')')), body, rest)
                  | none => none
                | _ => none
              | _ => none
            | _ => none
          else none
      else none

/-- `re.finditer` driver for the function-declaration regex: try the pattern
at each position from left to right, resuming after the end of each match.
Fuel bounds the recursion; every step consumes at least one character, so
`cs.length + 1` units (supplied by `findFunctionMatches`) are never
exhausted. -/
def findFunctionMatchesAux : Nat → List Char → Nat → List RawMatch
  | 0, _, _ => []
  | fuel + 1, cs, pos =>
    match matchFunctionAt cs with
    | some (name, params, body, rest) =>
      ⟨pos, pos + (cs.length - rest.length), name, params, body⟩ ::
        findFunctionMatchesAux fuel rest (pos + (cs.length - rest.length))
    | none =>
      match cs with
      | [] => []
      | _ :: t => findFunctionMatchesAux fuel t (pos + 1)

/-- All matches of the function-declaration regex in the content. -/
def findFunctionMatches (cs : List Char) : List RawMatch :=
  findFunctionMatchesAux (cs.length + 1) cs 0

/-- All captures of `\b(\w+)\s*\(` in the body (line 709): identifiers at a
word boundary that are followed, after optional whitespace, by an opening
parenthesis.  `re.findall` with one group returns the list of `\w+` captures.
Fuel as in `findFunctionMatchesAux`. -/
def findCallIdentsAux : Nat → Bool → List Char → List (List Char)
  | 0, _, _ => []
  | _ + 1, _, [] => []
  | fuel + 1, prevWord, c :: rest =>
    if isWordChar c && !prevWord then
      let run := c :: rest.takeWhile isWordChar
      let after := rest.dropWhile isWordChar
      match after.dropWhile isPySpace with
      | '(' :: r2 => run :: findCallIdentsAux fuel false r2
      | _ => findCallIdentsAux fuel true after
    else
      findCallIdentsAux fuel (isWordChar c) rest

/-- All call-site identifiers detected in a body. -/
def findCallIdents (body : List Char) : List (List Char) :=
  findCallIdentsAux (body.length + 1) false body

/-- Model of line 710, `calls = [match[0][:-1] for match in
re.findall(call_pattern, body)]`: `re.findall` yields the captured identifier
strings, `match[0]` is the first character of such a string and `[:-1]` then
drops the last character, so each entry collapses to the empty string. -/
def rawCalls (body : List Char) : List String :=
  (findCallIdents body).map (fun m => ((m.take 1).dropLast).asString)

/-- Model of `list(set(calls))` (line 728).  Python's set iteration order is
unspecified; `List.dedup` keeps one copy of each name, which the claims (that
only concern membership and duplicate-freedom) do not distinguish. -/
def jsCalls (body : List Char) : List String :=
  (rawCalls body).dedup

/-- Complexity approximation of lines 713-718: one plus the number of
occurrences of the counted keyword-plus-space patterns in the body. -/
def jsComplexity (body : List Char) : Nat :=
  1 + countSub "if ".toList body + countSub "for ".toList body
    + countSub "while ".toList body + countSub "try ".toList body
    + countSub "catch ".toList body

/-- Model of `content[:pos].count(chr(10)) + 1` (lines 686-687): the 1-based
line number of a character position. -/
def lineOfPos (content : List Char) (pos : Nat) : Nat :=
  (content.take pos).count '\n' + 1

/-- Build the `function_info` record of lines 721-731 from one regex match. -/
def mkFunctionInfo (content : List Char) (m : RawMatch) : FunctionInfo :=
  { name := m.name.asString
    line_start := lineOfPos content m.startPos
    line_end := lineOfPos content m.endPos
    calls := jsCalls m.body
    complexity := jsComplexity m.body }

/-- Attempt the arrow-function regex
`(?:const|let|var)\s+(\w+)\s*=\s*(?:\x28[^)]*\x29|\w+)\s*=>\s*\x7b(.*?)(?<=\x7d)`
(line 736) at the head of the input.  The three keywords start with distinct
characters and the two parameter alternatives start with disjoint character
classes, so the regex is deterministic. -/
def matchArrowAt (cs : List Char) : Option (List Char × List Char × List Char) :=
  match matchArrowKeyword cs with
  | none => none
  | some cs1 =>
    match cs1 with
    | [] => none
    | c1 :: cs2 =>
      if isPySpace c1 then
        match cs2.dropWhile isPySpace with
        | [] => none
        | c2 :: cs3 =>
          if isWordChar c2 then
            match (cs3.dropWhile isWordChar).dropWhile isPySpace with
            | '=' :: cs4 =>
              match matchArrowParams (cs4.dropWhile isPySpace) with
              | none => none
              | some cs5 =>
                match cs5.dropWhile isPySpace with
                | '=' :: '>' :: cs6 =>
                  match cs6.dropWhile isPySpace with
                  | '\x7b' :: cs7 =>
                    match splitAfterBrace cs7 with
                    | some (body, rest) =>
                      some (c2 :: cs3.takeWhile isWordChar, body, rest)
                    | none => none
                  | _ => none
                | _ => none
            | _ => none
          else none
      else none
where
  /-- The alternation `(?:const|let|var)`. -/
  matchArrowKeyword (cs : List Char) : Option (List Char) :=
    match stripLit "const".toList cs with
    | some r => some r
    | none =>
      match stripLit "let".toList cs with
      | some r => some r
      | none => stripLit "var".toList cs
  /-- The alternation `(?:\x28[^)]*\x29|\w+)`. -/
  matchArrowParams : List Char → Option (List Char)
    | '(' :: cs =>
      match cs.dropWhile (fun c => !(c == ')')) with
      | ')' :: rest => some rest
      | _ => none
    | c :: cs => if isWordChar c then some (cs.dropWhile isWordChar) else none
    | [] => none

/-- `re.finditer` driver for the arrow-function regex (lines 736-737),
yielding `(startPos, endPos, name)`; the captured body is unused by the
record built at lines 750-760. -/
def findArrowMatchesAux : Nat → List Char → Nat → List (Nat × Nat × List Char)
  | 0, _, _ => []
  | fuel + 1, cs, pos =>
    match matchArrowAt cs with
    | some (name, _, rest) =>
      (pos, pos + (cs.length - rest.length), name) ::
        findArrowMatchesAux fuel rest (pos + (cs.length - rest.length))
    | none =>
      match cs with
      | [] => []
      | _ :: t => findArrowMatchesAux fuel t (pos + 1)

/-- All matches of the arrow-function regex in the content. -/
def findArrowMatches (cs : List Char) : List (Nat × Nat × List Char) :=
  findArrowMatchesAux (cs.length + 1) cs 0

/-- Build the simplified arrow `function_info` of lines 750-760: empty
parameters and calls, complexity 1. -/
def mkArrowInfo (content : List Char) (m : Nat × Nat × List Char) : FunctionInfo :=
  { name := m.2.2.asString
    line_start := lineOfPos content m.1
    line_end := lineOfPos content m.2.1
    calls := []
    complexity := 1 }

/-- Attempt the class regex
`class\s+(\w+)(?:\s+extends\s+(\w+))?\s*\x7b(.*?)(?<=\x7d)` (line 765) at the
head of the input, returning `(name, superclass?, rest)`.  The greedy
optional `extends` group is tried first and the engine falls back to the
empty alternative when the remainder then fails, exactly as modelled by the
two ordered attempts below. -/
def matchClassAt (cs : List Char) : Option (List Char × Option (List Char) × List Char) :=
  match stripLit "class".toList cs with
  | none => none
  | some cs1 =>
    match cs1 with
    | [] => none
    | c1 :: cs2 =>
      if isPySpace c1 then
        match cs2.dropWhile isPySpace with
        | [] => none
        | c2 :: cs3 =>
          if isWordChar c2 then
            let name := c2 :: cs3.takeWhile isWordChar
            let afterName := cs3.dropWhile isWordChar
            match matchClassExtends afterName with
            | some (sup, cs4) =>
              match matchClassTail cs4 with
              | some rest => some (name, some sup, rest)
              | none =>
                match matchClassTail afterName with
                | some rest => some (name, none, rest)
                | none => none
            | none =>
              match matchClassTail afterName with
              | some rest => some (name, none, rest)
              | none => none
          else none
      else none
where
  /-- The optional group `(?:\s+extends\s+(\w+))`. -/
  matchClassExtends (cs : List Char) : Option (List Char × List Char) :=
    match cs with
    | [] => none
    | c1 :: cs1 =>
      if isPySpace c1 then
        match stripLit "extends".toList (cs1.dropWhile isPySpace) with
        | none => none
        | some cs2 =>
          match cs2 with
          | [] => none
          | c2 :: cs3 =>
            if isPySpace c2 then
              match cs3.dropWhile isPySpace with
              | [] => none
              | c3 :: cs4 =>
                if isWordChar c3 then
                  some (c3 :: cs4.takeWhile isWordChar, cs4.dropWhile isWordChar)
                else none
            else none
      else none
  /-- The tail `\s*\x7b(.*?)(?<=\x7d)`; the captured body is unused by the
  record fields kept in `ClassInfo`. -/
  matchClassTail (cs : List Char) : Option (List Char) :=
    match cs.dropWhile isPySpace with
    | '\x7b' :: cs1 =>
      match splitAfterBrace cs1 with
      | some (_, rest) => some rest
      | none => none
    | _ => none

/-- `re.finditer` driver for the class regex (lines 765-766), yielding
`(startPos, endPos, name, superclass?)`. -/
def findClassMatchesAux : Nat → List Char → Nat → List (Nat × Nat × List Char × Option (List Char))
  | 0, _, _ => []
  | fuel + 1, cs, pos =>
    match matchClassAt cs with
    | some (name, sup, rest) =>
      (pos, pos + (cs.length - rest.length), name, sup) ::
        findClassMatchesAux fuel rest (pos + (cs.length - rest.length))
    | none =>
      match cs with
      | [] => []
      | _ :: t => findClassMatchesAux fuel t (pos + 1)

/-- All matches of the class regex in the content. -/
def findClassMatches (cs : List Char) : List (Nat × Nat × List Char × Option (List Char)) :=
  findClassMatchesAux (cs.length + 1) cs 0

/-- Build the `class_info` record of lines 788-796 from one class match. -/
def mkClassInfo (content : List Char) (m : Nat × Nat × List Char × Option (List Char)) : ClassInfo :=
  { name := m.2.2.1.asString
    line_start := lineOfPos content m.1
    line_end := lineOfPos content m.2.1
    superclasses :=
      match m.2.2.2 with
      | some sup => [sup.asString]
      | none => [] }

/-- `JavaScriptCodeParser.parse_and_analyze` (lines 666-811): function
declarations, then arrow functions, then classes.  The regex pipeline cannot
raise, so the `except` branch of lines 805-811 is unreachable and `error` is
always `none`. -/
def parse_and_analyze (content : String) : FileAnalysis :=
  let cs := content.toList
  { functions :=
      (findFunctionMatches cs).map (mkFunctionInfo cs)
        ++ (findArrowMatches cs).map (mkArrowInfo cs)
    classes := (findClassMatches cs).map (mkClassInfo cs)
    error := none }

end JavaScriptCodeParser

namespace CCodeParser

/-- Model of the call extraction of `CCodeParser.parse_and_analyze`
(lines 1010-1013) for a function whose captured name and body are given.
Line 1012 is the same `match[0][:-1]` mangling as line 710, line 1013 then
filters the function's own name, and line 1032 applies `list(set(...))`. -/
def cCalls (name : String) (body : List Char) : List String :=
  (((JavaScriptCodeParser.findCallIdents body).map
      (fun m => ((m.take 1).dropLast).asString)).filter
        (fun c => !(c == name))).dedup

/-- Complexity approximation of lines 1016-1022. -/
def cComplexity (body : List Char) : Nat :=
  1 + countSub "if ".toList body + countSub "else ".toList body
    + countSub "for ".toList body + countSub "while ".toList body
    + countSub "switch ".toList body + countSub "case ".toList body

end CCodeParser

namespace PythonCodeParser

/-- The fragment of the Python `ast` node hierarchy that
`PythonCodeParser.parse_and_analyze` (lines 544-660) inspects.  All
statements other than function and class definitions and assignments are
collapsed into `stmt`. -/
inductive PyNode where
  | module (body : List PyNode) : PyNode
  | functionDef (name : String) (body : List PyNode) : PyNode
  | classDef (name : String) (bases : List String) (body : List PyNode) : PyNode
  | assign (targets : List String) : PyNode
  | stmt : PyNode

mutual
/-- Whether `ast.walk` would reach a `FunctionDef` node.  Line 558 reads
`node.parent`, an attribute the `ast` module never sets, so the walk of
lines 554-640 raises `AttributeError` at the first `FunctionDef` it visits;
the whole extraction then lands in the handler of lines 654-660. -/
def containsFunctionDef : PyNode → Bool
  | .module body => containsFunctionDefList body
  | .functionDef _ _ => true
  | .classDef _ _ body => containsFunctionDefList body
  | .assign _ => false
  | .stmt => false

/-- `containsFunctionDef` over a list of children. -/
def containsFunctionDefList : List PyNode → Bool
  | [] => false
  | n :: rest => containsFunctionDef n || containsFunctionDefList rest
end

/-- Class record of lines 630-638; line numbers and `docstring` omitted. -/
structure PyClassInfo where
  name : String
  superclasses : List String
  methods : List String
  properties : List String

/-- Function record of lines 590-600; never produced (see
`containsFunctionDef`), kept to type the result. -/
structure PyFunctionInfo where
  name : String
  calls : List String
  complexity : Nat

/-- Result of `PythonCodeParser.parse_and_analyze`. -/
structure PyFileAnalysis where
  functions : List PyFunctionInfo
  classes : List PyClassInfo
  error : Option String

/-- The `class_info` of lines 605-638 for one `ClassDef`. -/
def mkPyClassInfo (name : String) (bases : List String) (body : List PyNode) : PyClassInfo :=
  { name := name
    superclasses := bases
    methods := body.filterMap (fun n =>
      match n with
      | .functionDef nm _ => some nm
      | _ => none)
    properties := body.flatMap (fun n =>
      match n with
      | .assign targets => targets
      | _ => []) }

mutual
/-- Collect the `ClassDef` records the walk of lines 554-640 builds.  This
is only consulted when the tree contains no `FunctionDef` (otherwise the
`AttributeError` of line 558 discards everything); `ast.walk` is
breadth-first while this collection is depth-first, which can only permute
the classes and no claim depends on their order. -/
def collectClasses : PyNode → List PyClassInfo
  | .module body => collectClassesList body
  | .functionDef _ body => collectClassesList body
  | .classDef name bases body => mkPyClassInfo name bases body :: collectClassesList body
  | .assign _ => []
  | .stmt => []

/-- `collectClasses` over a list of children. -/
def collectClassesList : List PyNode → List PyClassInfo
  | [] => []
  | n :: rest => collectClasses n ++ collectClassesList rest
end

/-- `PythonCodeParser.parse_and_analyze` (lines 544-660), abstracted over the
outcome of `ast.parse(content)`: a `SyntaxError` lands in the handler of
lines 647-653; a parsed tree containing any `FunctionDef` triggers the
`AttributeError` of line 558 (caught at lines 654-660); otherwise the walk
completes, producing no functions and the collected classes. -/
def parse_and_analyze (input : Except String PyNode) : PyFileAnalysis :=
  match input with
  | .error msg =>
    { functions := [], classes := [], error := some ("Syntax error: " ++ msg) }
  | .ok tree =>
    if containsFunctionDef tree then
      { functions := [], classes := []
        error := some "Error parsing Python code: 'FunctionDef' object has no attribute 'parent'" }
    else
      { functions := [], classes := collectClasses tree, error := none }

end PythonCodeParser

/-- The extension table of `EnhancedCodeAnalyzer._detect_language`
(lines 498-515). -/
def language_map : List (String × String) :=
  [(".py", "python"), (".js", "javascript"), (".jsx", "javascript"),
   (".ts", "typescript"), (".tsx", "typescript"), (".java", "java"),
   (".c", "c"), (".h", "c"), (".cpp", "cpp"), (".hpp", "cpp"),
   (".cs", "csharp"), (".go", "go"), (".rb", "ruby"), (".php", "php"),
   (".swift", "swift"), (".rs", "rust")]

/-- Extension lookup of lines 517-518. -/
def lookupExt (ext : String) : Option String :=
  (language_map.find? (fun p => p.1 == ext)).map (fun p => p.2)

namespace EnhancedCodeAnalyzer

/-- One entry of `source_data['files']` as consumed by
`analyze_code_source` (lines 67-70). -/
structure FileData where
  path : String
  content : String
  language : String
  deriving DecidableEq, Repr

/-- The fields of a per-file function dict that the aggregation and linking
passes read (`name` and `calls`); line numbers and the rest are irrelevant
to them. -/
structure ParsedFunction where
  name : String
  calls : List String
  deriving DecidableEq, Repr

/-- The fields of a per-file class dict that aggregation and linking read. -/
structure ParsedClass where
  name : String
  deriving DecidableEq, Repr

/-- A function dict after lines 86-87 tagged it with `file` and `language`.
-/
structure TaggedFunction where
  name : String
  calls : List String
  file : String
  language : String
  deriving DecidableEq, Repr

/-- A class dict after lines 93-94 tagged it with `file` and `language`. -/
structure TaggedClass where
  name : String
  file : String
  language : String
  deriving DecidableEq, Repr

/-- A `dependencies` entry appended at lines 404-410. -/
structure Dependency where
  source : String
  target : String
  source_file : String
  target_file : String
  type : String
  deriving DecidableEq, Repr

/-- A `symbol_map` value (lines 382-392): the entity tagged with its kind. -/
inductive SymbolData where
  | func : TaggedFunction → SymbolData
  | cls : TaggedClass → SymbolData
  deriving DecidableEq, Repr

/-- The `['data']['file']` access of line 408, valid for both kinds. -/
def SymbolData.file : SymbolData → String
  | .func f => f.file
  | .cls c => c.file

/-- The `analysis_results` dict (lines 51-60); `quality_metrics` and
`insights` are omitted (no claim uses them). -/
structure AnalysisResults where
  files_analyzed : Nat
  functions : List TaggedFunction
  classes : List TaggedClass
  dependencies : List Dependency
  language_breakdown : List (String × Nat)
  symbols : List (String × SymbolData)
  deriving DecidableEq, Repr

/-- The initial `analysis_results` of lines 51-60. -/
def initResults : AnalysisResults :=
  { files_analyzed := 0, functions := [], classes := [], dependencies := []
    language_breakdown := [], symbols := [] }

/-- Python dict assignment `d[k] = v` on an insertion-ordered association
list: replace in place when the key exists, append otherwise. -/
def insertSymbol (m : List (String × SymbolData)) (k : String) (v : SymbolData) :
    List (String × SymbolData) :=
  if m.any (fun p => p.1 == k) then
    m.map (fun p => if p.1 == k then (p.1, v) else p)
  else m ++ [(k, v)]

/-- Key lookup in the symbol map (the `in`/`[]` of lines 401-403). -/
def lookupSymbol (m : List (String × SymbolData)) (k : String) : Option SymbolData :=
  (m.find? (fun p => p.1 == k)).map (fun p => p.2)

/-- `language_count[language] = language_count.get(language, 0) + 1`
(line 73) on an insertion-ordered association list: bump in place when the
key exists (keys are unique), append `(k, 1)` otherwise. -/
def updateCount : List (String × Nat) → String → List (String × Nat)
  | [], k => [(k, 1)]
  | (a, n) :: rest, k =>
    if a == k then (a, n + 1) :: rest else (a, n) :: updateCount rest k

/-- The count recorded for a key (0 when absent). -/
def lookupCount (m : List (String × Nat)) (k : String) : Nat :=
  ((m.find? (fun p => p.1 == k)).map (fun p => p.2)).getD 0

/-- `EnhancedCodeAnalyzer._build_cross_file_relationships` (lines 375-413):
build the symbol map from all functions then all classes (later assignments
win on name collision), then append one dependency per `calls` entry whose
name is a key of the symbol map. -/
def build_cross_file_relationships (r : AnalysisResults) : AnalysisResults :=
  let sm := r.classes.foldl (fun m c => insertSymbol m c.name (.cls c))
    (r.functions.foldl (fun m f => insertSymbol m f.name (.func f)) [])
  let deps := r.functions.foldl (fun acc f =>
    acc ++ f.calls.filterMap (fun called =>
      (lookupSymbol sm called).map (fun sd =>
        { source := f.name, target := called, source_file := f.file
          target_file := sd.file, type := "call" }))) r.dependencies
  { r with dependencies := deps, symbols := sm }

/-- The body of the per-file loop of lines 67-101, abstracted over the
outcome of `analyze_file` (`none` models both a `None` result and a caught
per-file exception; a `some` result is a truthy dict).  The language count
of line 73 is updated before the size/language skip of lines 76-77. -/
def processFile (az : FileData → Option (List ParsedFunction × List ParsedClass))
    (maxSize : Nat) (r : AnalysisResults) (fd : FileData) : AnalysisResults :=
  let r := { r with language_breakdown := updateCount r.language_breakdown fd.language }
  if fd.language == "unknown" || decide (maxSize < fd.content.length) then r
  else
    match az fd with
    | none => r
    | some (fns, cls) =>
      { r with
        functions := r.functions ++ fns.map (fun f =>
          { name := f.name, calls := f.calls, file := fd.path, language := fd.language })
        classes := r.classes ++ cls.map (fun c =>
          { name := c.name, file := fd.path, language := fd.language })
        files_analyzed := r.files_analyzed + 1 }

/-- `EnhancedCodeAnalyzer.analyze_code_source` (lines 39-118): fold the
per-file loop over the scanned files, set the language breakdown, then link
across files.  `_generate_insights` only writes the omitted `insights`
field. -/
def analyze_code_source (az : FileData → Option (List ParsedFunction × List ParsedClass))
    (maxSize : Nat) (files : List FileData) : AnalysisResults :=
  build_cross_file_relationships (files.foldl (processFile az maxSize) initResults)

/-- `EnhancedCodeAnalyzer._find_function_callers` (lines 361-373): the
functions whose `calls` list contains the given name. -/
def find_function_callers (functionName : String) (functions : List TaggedFunction) :
    List String :=
  (functions.filter (fun f => f.calls.contains functionName)).map (fun f => f.name)

end EnhancedCodeAnalyzer

namespace CodeContextGraph

/-- The attribute values this codebase stores on graph nodes and edges:
strings (`type`, `path`, `extension`, `relationship`), integers (`size`) and
string lists (`methods`).  JSON (`json.dump`/`json.load`) round-trips these
values exactly, so persistence is modelled at this level. -/
inductive AttrVal where
  | str : String → AttrVal
  | num : Int → AttrVal
  | strList : List String → AttrVal
  deriving DecidableEq, Repr

/-- An attribute dict, insertion-ordered. -/
abbrev Attrs := List (String × AttrVal)

/-- Model of `networkx.DiGraph`: nodes in insertion order with their
attribute dicts, and directed edges in insertion order with their attribute
dicts.  `networkx` keys nodes by identity and allows at most one directed
edge per ordered pair; graphs built through `addNode`/`addEdge` below keep
those invariants. -/
structure DiGraph where
  nodes : List (String × Attrs)
  edges : List (String × String × Attrs)
  deriving DecidableEq, Repr

/-- The empty graph (`nx.DiGraph()`). -/
def DiGraph.empty : DiGraph := ⟨[], []⟩

/-- `node in graph`. -/
def hasNode (g : DiGraph) (i : String) : Bool :=
  g.nodes.any (fun p => p.1 == i)

/-- Attribute lookup in a dict (`d.get(k)`). -/
def lookupAttr (a : Attrs) (k : String) : Option AttrVal :=
  (a.find? (fun kv => kv.1 == k)).map (fun kv => kv.2)

/-- `graph.nodes[i]` (empty for an absent node; only queried for present
nodes by the source). -/
def getNodeAttrs (g : DiGraph) (i : String) : Attrs :=
  ((g.nodes.find? (fun p => p.1 == i)).map (fun p => p.2)).getD []

/-- Python `dict.update`: existing keys keep their position and take the new
value, new keys are appended. -/
def dictUpdate (old upd : Attrs) : Attrs :=
  old.map (fun kv => (kv.1, ((upd.find? (fun q => q.1 == kv.1)).map (fun q => q.2)).getD kv.2))
    ++ upd.filter (fun q => old.all (fun kv => !(kv.1 == q.1)))

/-- `graph.add_node(i, **a)`: update the attribute dict of an existing node
(edges preserved), append a fresh node otherwise. -/
def DiGraph.addNode (g : DiGraph) (i : String) (a : Attrs) : DiGraph :=
  if hasNode g i then
    ⟨g.nodes.map (fun kv => if kv.1 == i then (kv.1, dictUpdate kv.2 a) else kv), g.edges⟩
  else ⟨g.nodes ++ [(i, a)], g.edges⟩

/-- `add_edge` inserts absent endpoints as attribute-less nodes. -/
def ensureNode (g : DiGraph) (i : String) : DiGraph :=
  if hasNode g i then g else ⟨g.nodes ++ [(i, [])], g.edges⟩

/-- Whether a directed edge between the pair exists. -/
def hasEdge (g : DiGraph) (u v : String) : Bool :=
  g.edges.any (fun e => e.1 == u && e.2.1 == v)

/-- `graph.add_edge(u, v, **a)`: insert missing endpoints, then update the
data of an existing `(u, v)` edge or append a fresh one. -/
def DiGraph.addEdge (g : DiGraph) (u v : String) (a : Attrs) : DiGraph :=
  let g := ensureNode (ensureNode g u) v
  if hasEdge g u v then
    ⟨g.nodes,
      g.edges.map (fun e =>
        if e.1 == u && e.2.1 == v then (e.1, e.2.1, dictUpdate e.2.2 a) else e)⟩
  else ⟨g.nodes, g.edges ++ [(u, v, a)]⟩

/-- The successors of a node (targets of its outgoing edges). -/
def successors (g : DiGraph) (u : String) : List String :=
  g.edges.filterMap (fun e => if e.1 == u then some e.2.1 else none)

/-- Directed reachability in the modelled graph. -/
inductive Reach (g : DiGraph) : String → String → Prop where
  | refl (u : String) : Reach g u u
  | step {u v w : String} : v ∈ successors g u → Reach g v w → Reach g u w

/-- A reversed walk from `source`: the head of the list is the walk's
current endpoint.  This is the shape of the paths `bfsAux` keeps in its
queue. -/
inductive RPath (g : DiGraph) (source : String) : List String → Prop where
  | base : RPath g source [source]
  | cons {u v : String} {p : List String} :
      RPath g source (v :: p) → u ∈ successors g v → RPath g source (u :: v :: p)

/-- Breadth-first search for `target`, with a queue of reversed paths and a
visited list.  `nx.shortest_path` on an unweighted graph is a bidirectional
breadth-first search; the claims proved below rely only on the facts that a
returned path is a real path and that the `source = target` query
short-circuits, both of which that algorithm shares with this one.  Fuel
makes the recursion structural; it only ever runs out when no path exists.
-/
def bfsAux (g : DiGraph) (target : String) :
    Nat → List (List String) → List String → Option (List String)
  | 0, _, _ => none
  | _ + 1, [], _ => none
  | fuel + 1, p :: queue, visited =>
    match p with
    | [] => bfsAux g target fuel queue visited
    | u :: _ =>
      if u == target then some p.reverse
      else
        bfsAux g target fuel
          (queue ++ ((successors g u).filter (fun v => !(visited.contains v))).map
            (fun v => v :: p))
          (visited ++ (successors g u).filter (fun v => !(visited.contains v)))

/-- `nx.shortest_path(graph, source, target)` as used by `find_path`
(line 171): the trivial query returns the one-node path, otherwise search;
`none` models the `NetworkXNoPath` exception. -/
def shortest_path (g : DiGraph) (source target : String) : Option (List String) :=
  if source == target then some [source]
  else bfsAux g target (g.nodes.length + g.edges.length + 1) [[source]] [source]

/-- `CodeContextGraph.find_path` (lines 158-179): an empty result when an
endpoint is absent or no path exists (the caught `NetworkXNoPath`),
otherwise the node sequence paired with each node's attribute dict. -/
def find_path (g : DiGraph) (source target : String) : List (String × Attrs) :=
  if hasNode g source && hasNode g target then
    match shortest_path g source target with
    | some p => p.map (fun n => (n, getNodeAttrs g n))
    | none => []
  else []

/-- One entry of the `incoming`/`outgoing` lists of lines 200-213. -/
structure DepEntry where
  entity : String
  type : Option AttrVal
  relationship : Option AttrVal
  deriving DecidableEq, Repr

/-- `CodeContextGraph.find_dependencies` (lines 181-215): the empty dict for
an absent entity (line 192), otherwise a dict with the `incoming` and
`outgoing` edge lists.  Dicts are modelled as key-value lists. -/
def find_dependencies (g : DiGraph) (entity : String) : List (String × List DepEntry) :=
  if hasNode g entity then
    [("incoming", g.edges.filterMap (fun e =>
        if e.2.1 == entity then
          some { entity := e.1, type := lookupAttr (getNodeAttrs g e.1) "type"
                 relationship := lookupAttr e.2.2 "relationship" }
        else none)),
     ("outgoing", g.edges.filterMap (fun e =>
        if e.1 == entity then
          some { entity := e.2.1, type := lookupAttr (getNodeAttrs g e.2.1) "type"
                 relationship := lookupAttr e.2.2 "relationship" }
        else none))]
  else []

/-- A file enumerated by `repo_path.rglob` in `_add_file_nodes`
(lines 59-93), already filtered of `.git` entries: its relative path
segments (nonempty), extension and size. -/
structure FileEntry where
  segments : List String
  extension : String
  size : Nat
  deriving DecidableEq, Repr

/-- `str(Path(...))` for a relative path given by segments (`.` when empty,
as for `Path('.')`). -/
def joinSegs : List String → String
  | [] => "."
  | [s] => s
  | s :: rest => s ++ "/" ++ joinSegs rest

/-- The directory-hierarchy loop of lines 76-93: walk the parent chain up to
(excluding) `.`, inserting each directory on first encounter with a
`contains` edge from the repository, and adding a `contains` edge from every
ancestor directory to the file.  Each iteration drops the last path segment,
so `segs.length` steps of fuel (supplied by `addDirChain`) always suffice.
-/
def addDirChainAux (repoPath fileRel : String) : Nat → DiGraph → List String → DiGraph
  | 0, g, _ => g
  | _ + 1, g, [] => g
  | fuel + 1, g, segs@(_ :: _) =>
    let d := joinSegs segs
    let g :=
      if hasNode g d then g
      else (g.addNode d [("type", .str "directory"), ("path", .str d)]).addEdge
        repoPath d [("relationship", .str "contains")]
    let g := g.addEdge d fileRel [("relationship", .str "contains")]
    addDirChainAux repoPath fileRel fuel g segs.dropLast

/-- The loop of lines 76-93 over the full parent chain. -/
def addDirChain (repoPath fileRel : String) (g : DiGraph) (segs : List String) : DiGraph :=
  addDirChainAux repoPath fileRel segs.length g segs

/-- The per-file body of `_add_file_nodes` (lines 61-93). -/
def addFileNode (repoPath : String) (g : DiGraph) (f : FileEntry) : DiGraph :=
  let rel := joinSegs f.segments
  let g := g.addNode rel
    [("type", .str "file"), ("path", .str rel),
     ("extension", .str f.extension), ("size", .num f.size)]
  let g := g.addEdge repoPath rel [("relationship", .str "contains")]
  addDirChain repoPath rel g f.segments.dropLast

/-- `CodeContextGraph._add_code_entities` (lines 95-115): a hard-coded
placeholder, independent of the repository's extracted entities. -/
def add_code_entities (g : DiGraph) : DiGraph :=
  (g.addNode "ExampleClass"
      [("type", .str "class"), ("path", .str "example/file.py"),
       ("methods", .strList ["method1", "method2"])]).addEdge
    "example/file.py" "ExampleClass" [("relationship", .str "contains")]

/-- `CodeContextGraph._add_code_relationships` (lines 117-127): a hard-coded
placeholder edge. -/
def add_code_relationships (g : DiGraph) : DiGraph :=
  g.addEdge "ExampleClass" "method1" [("relationship", .str "defines")]

/-- `CodeContextGraph.build_graph` (lines 19-57): clear the graph, insert
the repository node, the file and directory nodes, then the placeholder
entity nodes and relationships.  `_save_graph` (file output) is omitted. -/
def build_graph (repoPath : String) (files : List FileEntry) : DiGraph :=
  let g := DiGraph.empty.addNode repoPath
    [("type", .str "repository"), ("path", .str repoPath)]
  let g := files.foldl (addFileNode repoPath) g
  add_code_relationships (add_code_entities g)

/-- The JSON document produced by `nx.node_link_data` and written by
`_save_graph` (lines 217-232): each node's attribute dict with its `id`
merged in, each edge's data dict with `source` and `target` merged in. -/
structure NodeLinkData where
  directed : Bool
  multigraph : Bool
  nodes : List Attrs
  links : List Attrs
  deriving DecidableEq, Repr

/-- `nx.node_link_data(graph)` (line 223). -/
def node_link_data (g : DiGraph) : NodeLinkData :=
  { directed := true, multigraph := false
    nodes := g.nodes.map (fun kv => kv.2 ++ [("id", .str kv.1)])
    links := g.edges.map (fun e =>
      e.2.2 ++ [("source", .str e.1), ("target", .str e.2.1)]) }

/-- Recover a node from its serialized object: the `id` key names the node,
the remaining keys are its attributes. -/
def decodeNode (obj : Attrs) : Option (String × Attrs) :=
  match lookupAttr obj "id" with
  | some (.str i) => some (i, obj.filter (fun kv => !(kv.1 == "id")))
  | _ => none

/-- Recover an edge from its serialized object: `source` and `target` name
the endpoints, the remaining keys are the edge data. -/
def decodeLink (obj : Attrs) : Option (String × String × Attrs) :=
  match lookupAttr obj "source", lookupAttr obj "target" with
  | some (.str u), some (.str v) =>
    some (u, v, obj.filter (fun kv => !(kv.1 == "source") && !(kv.1 == "target")))
  | _, _ => none

/-- `nx.node_link_graph(data)` for a directed non-multigraph document, as
read back by `load_graph` (lines 234-261): rebuild a fresh graph by adding
every decoded node and then every decoded edge. -/
def node_link_graph (d : NodeLinkData) : Option DiGraph := do
  let ns ← d.nodes.mapM decodeNode
  let ls ← d.links.mapM decodeLink
  pure (ls.foldl (fun g e => g.addEdge e.1 e.2.1 e.2.2)
    (ns.foldl (fun g n => g.addNode n.1 n.2) DiGraph.empty))

/-- The invariants every `networkx.DiGraph` serialized by this codebase
satisfies: node ids are unique, at most one edge per ordered pair, edge
endpoints are nodes, and no attribute uses the reserved serialization keys
(`id` on nodes, `source`/`target` on edges); the attributes this codebase
writes are `type`, `path`, `extension`, `size`, `methods` and
`relationship`. -/
def WFGraph (g : DiGraph) : Prop :=
  (g.nodes.map Prod.fst).Nodup ∧
  (g.edges.map (fun e => (e.1, e.2.1))).Nodup ∧
  (∀ e ∈ g.edges, hasNode g e.1 = true ∧ hasNode g e.2.1 = true) ∧
  (∀ n ∈ g.nodes, ∀ kv ∈ n.2, kv.1 ≠ "id") ∧
  (∀ e ∈ g.edges, ∀ kv ∈ e.2.2, kv.1 ≠ "source" ∧ kv.1 ≠ "target")

end CodeContextGraph

/-! Concrete inputs used by the theorems below. -/

/-- A JavaScript function whose body contains a nested braced block:
`function f(a) ... if (a) ... g(); ... h(); ...` over four lines, with the
function's own closing brace on line 4. -/
def truncContent : String :=
  "function f(a) \x7b\n  if (a) \x7b g(); \x7d\n  h();\n\x7d"

/-- The text following the opening brace of `truncContent`'s function. -/
def truncBodyTail : String :=
  "\n  if (a) \x7b g(); \x7d\n  h();\n\x7d"

/-- A repository containing one file `widget.py` (whose content, per the
spec scenario, defines class `Widget`). -/
def widgetRepoFiles : List CodeContextGraph.FileEntry :=
  [{ segments := ["widget.py"], extension := ".py", size := 120 }]

/-- The two entities of the spec's end-to-end scenario, as tagged entities:
`foo` in `a.lang` with `calls = [bar]`, and `bar` in `b.lang`. -/
def scenarioFunctions : List EnhancedCodeAnalyzer.TaggedFunction :=
  [{ name := "foo", calls := ["bar"], file := "a.lang", language := "lang" },
   { name := "bar", calls := [], file := "b.lang", language := "lang" }]

/-- The two files of the spec's end-to-end scenario as seen by
`build_graph`. -/
def scenarioGraph : CodeContextGraph.DiGraph :=
  CodeContextGraph.build_graph "repo"
    [{ segments := ["a.lang"], extension := ".lang", size := 10 },
     { segments := ["b.lang"], extension := ".lang", size := 10 }]

/-- A JavaScript source defining `foo` whose body calls `bar`. -/
def jsFooBar : String := "function foo(x) \x7b bar(x); \x7d"

/-- A one-file source whose language is `unknown`. -/
def unknownOnlySource : List EnhancedCodeAnalyzer.FileData :=
  [{ path := "a.dat", content := "data", language := "unknown" }]

/-- A per-file analyzer stub for exercising the aggregation loop. -/
def emptyAnalyzer : EnhancedCodeAnalyzer.FileData →
    Option (List EnhancedCodeAnalyzer.ParsedFunction × List EnhancedCodeAnalyzer.ParsedClass) :=
  fun _ => some ([], [])

/-- A two-node edgeless graph (nodes `x` and `y`). -/
def twoNodeGraph : CodeContextGraph.DiGraph :=
  { nodes := [("x", [("type", .str "file")]), ("y", [("type", .str "file")])]
    edges := [] }

/-- A concrete attributed graph exercising the persistence round trip. -/
def rtGraph : CodeContextGraph.DiGraph :=
  { nodes :=
      [("a.py", [("type", .str "file"), ("size", .num 3)]),
       ("Widget", [("type", .str "class"), ("methods", .strList ["draw", "resize"])])]
    edges := [("a.py", "Widget", [("relationship", .str "contains")])] }

end CodingAssistant

namespace CodingAssistant

open JavaScriptCodeParser EnhancedCodeAnalyzer CodeContextGraph

/-- C1: the claim says the brace-delimited body capture of the heuristic
extractors includes content up through the function's own closing brace.  It
does not: the lazy capture modelled by `splitAfterBrace` stops at the first
closing brace, so for `truncContent` the extracted body is only the `if`
block, `line_end` is reported as 2 although the function ends on line 4, and
the call to `h` on line 3 is not derived from the captured body (the
spec-modelled `balancedBodyCapture` returns the full body). -/
theorem c1_brace_capture_truncated :
    ((JavaScriptCodeParser.parse_and_analyze truncContent).functions.map
        (fun f => (f.name, f.line_start, f.line_end, f.calls)))
      = [("f", 1, 2, [""])]
    ∧ (findFunctionMatches truncContent.toList).map (fun m => m.body)
      = ["\n  if (a) \x7b g(); \x7d".toList]
    ∧ balancedBodyCapture truncBodyTail.toList
      = some "\n  if (a) \x7b g(); \x7d\n  h();\n\x7d".toList
    ∧ lineOfPos truncContent.toList truncContent.length = 4 := by
  decide

/-- C2 counterexample: `.js` classifies to the known language `javascript`,
yet extracting the file content `x` returns empty function and class lists
with no error set, contradicting the claim that the result either has a
non-empty entity list or a populated error field. -/
theorem c2_counterexample :
    lookupExt ".js" = some "javascript"
    ∧ JavaScriptCodeParser.parse_and_analyze "x"
      = { functions := [], classes := [], error := none } := by
  decide

/-- C3: the claim says each extracted class/function entity is inserted into
the built graph and linked to its file.  `build_graph` never receives the
extracted entities: for a repository whose one file `widget.py` defines
class `Widget`, the built graph has no `Widget` node, and its only
class-typed node is the hard-coded placeholder `ExampleClass`. -/
theorem c3_entities_not_inserted :
    hasNode (build_graph "repo" widgetRepoFiles) "Widget" = false
    ∧ ((build_graph "repo" widgetRepoFiles).nodes.filter
        (fun n => lookupAttr n.2 "type" == some (.str "class"))).map Prod.fst
      = ["ExampleClass"] := by
  decide

/-- A fold that appends per-element blocks flattens to one concatenation.
-/
theorem foldl_append_flatMap {α β : Type} (f : α → List β) :
    ∀ (l : List α) (acc : List β),
      l.foldl (fun acc x => acc ++ f x) acc = acc ++ l.flatMap f
  | [], acc => by simp
  | x :: rest, acc => by
    simp only [List.foldl_cons, List.flatMap_cons]
    rw [foldl_append_flatMap f rest (acc ++ f x)]
    simp [List.append_assoc]

/-- The linker's output characterized: the prior dependency entries
followed by, for each function in order, one `Dependency` per `calls` entry
whose name is a key of the symbol map — and nothing else (the claim's
"exactly when" clause; unresolved names are dropped by `filterMap`). -/
theorem build_cross_file_dependencies_spec (r : AnalysisResults) :
    (build_cross_file_relationships r).dependencies
      = r.dependencies ++ r.functions.flatMap (fun f =>
          f.calls.filterMap (fun called =>
            (lookupSymbol (build_cross_file_relationships r).symbols called).map
              (fun sd =>
                { source := f.name, target := called, source_file := f.file
                  target_file := sd.file, type := "call" }))) := by
  unfold build_cross_file_relationships
  simp only []
  rw [foldl_append_flatMap]

/-- C4: given entity lists in which `foo` (in `a.lang`) has `calls = [bar]`
and `bar` lives in `b.lang`, the linker does emit exactly the one claimed
`Dependency` — and in general it emits a `Dependency` per `calls` entry
exactly when the name is a key of the symbol map (first conjunct); but the
extractors never produce such a `calls` list (the JavaScript extractor turns
the call of `bar` into the empty string), and the built graph contains no
`bar` node, so querying its dependencies returns the empty dict rather than
listing `foo` among incoming. -/
theorem c4_scenario_broken_pipeline :
    (∀ r : AnalysisResults,
      (build_cross_file_relationships r).dependencies
        = r.dependencies ++ r.functions.flatMap (fun f =>
            f.calls.filterMap (fun called =>
              (lookupSymbol (build_cross_file_relationships r).symbols called).map
                (fun sd =>
                  { source := f.name, target := called, source_file := f.file
                    target_file := sd.file, type := "call" }))))
    ∧ (build_cross_file_relationships
        { initResults with functions := scenarioFunctions }).dependencies
      = [{ source := "foo", target := "bar", source_file := "a.lang"
           target_file := "b.lang", type := "call" }]
    ∧ ((JavaScriptCodeParser.parse_and_analyze jsFooBar).functions.map
        (fun f => (f.name, f.calls)))
      = [("foo", [""])]
    ∧ find_dependencies scenarioGraph "bar" = [] :=
  ⟨build_cross_file_dependencies_spec, by decide⟩

/-- C5 counterexample: a skipped unknown-language file is excluded from
`files_analyzed` but still counted in `language_breakdown`, contradicting
the claim that skipped files are excluded from all counts including the
per-language distribution. -/
theorem c5_counterexample :
    (analyze_code_source emptyAnalyzer 500000 unknownOnlySource).language_breakdown
      = [("unknown", 1)]
    ∧ (analyze_code_source emptyAnalyzer 500000 unknownOnlySource).files_analyzed = 0 := by
  decide

/-! Occurrence counts are preserved by extending the text to the right. -/

/-- A prefix of `s` is a prefix of `s ++ t`. -/
theorem isPrefixOf_append_right :
    ∀ (pat s t : List Char), pat.isPrefixOf s = true → pat.isPrefixOf (s ++ t) = true
  | [], _, _, _ => by simp [List.isPrefixOf]
  | _ :: _, [], _, h => by simp [List.isPrefixOf] at h
  | a :: as, b :: bs, t, h => by
    simp only [List.isPrefixOf, List.cons_append, Bool.and_eq_true] at h ⊢
    exact ⟨h.1, isPrefixOf_append_right as bs t h.2⟩

/-- `countSub` is monotone under appending text on the right. -/
theorem countSub_le_append (pat s t : List Char) :
    countSub pat s ≤ countSub pat (s ++ t) := by
  induction s with
  | nil => exact Nat.zero_le _
  | cons c rest ih =>
    simp only [countSub, List.cons_append]
    have hin : (if pat.isPrefixOf (c :: rest) then 1 else 0)
        ≤ (if pat.isPrefixOf (c :: (rest ++ t)) then (1 : Nat) else 0) := by
      by_cases h : pat.isPrefixOf (c :: rest) = true
      · have := isPrefixOf_append_right pat (c :: rest) t h
        simp only [List.cons_append] at this
        simp [h, this]
      · simp [h]
    exact Nat.add_le_add hin ih

/-- C9: every function record any modelled extractor produces has
`complexity` at least 1, and the substring-count complexity approximations
of the JavaScript and C extractors are monotone under appending further
constructs to the body. -/
theorem c9_complexity_monotone :
    (∀ (content : String), ∀ f ∈ (JavaScriptCodeParser.parse_and_analyze content).functions,
        1 ≤ f.complexity)
    ∧ (∀ body extra : List Char, jsComplexity body ≤ jsComplexity (body ++ extra))
    ∧ (∀ body : List Char, 1 ≤ CCodeParser.cComplexity body)
    ∧ (∀ body extra : List Char,
        CCodeParser.cComplexity body ≤ CCodeParser.cComplexity (body ++ extra)) := by
  refine ⟨?_, ?_, ?_, ?_⟩
  · intro content f hf
    simp only [JavaScriptCodeParser.parse_and_analyze, List.mem_append, List.mem_map] at hf
    rcases hf with ⟨m, _, rfl⟩ | ⟨m, _, rfl⟩
    · simp only [mkFunctionInfo, jsComplexity]
      omega
    · exact Nat.le_refl 1
  · intro body extra
    unfold jsComplexity
    have h1 := countSub_le_append "if ".toList body extra
    have h2 := countSub_le_append "for ".toList body extra
    have h3 := countSub_le_append "while ".toList body extra
    have h4 := countSub_le_append "try ".toList body extra
    have h5 := countSub_le_append "catch ".toList body extra
    omega
  · intro body
    simp only [CCodeParser.cComplexity]
    omega
  · intro body extra
    unfold CCodeParser.cComplexity
    have h1 := countSub_le_append "if ".toList body extra
    have h2 := countSub_le_append "else ".toList body extra
    have h3 := countSub_le_append "for ".toList body extra
    have h4 := countSub_le_append "while ".toList body extra
    have h5 := countSub_le_append "switch ".toList body extra
    have h6 := countSub_le_append "case ".toList body extra
    omega

/-- C9 witness: the theorem applied to the concrete extraction of
`truncContent`'s function and to a concrete body extension. -/
theorem c9_complexity_witness :
    1 ≤ ((JavaScriptCodeParser.parse_and_analyze truncContent).functions.get
        ⟨0, by decide⟩).complexity
    ∧ jsComplexity " x; ".toList ≤ jsComplexity (" x; ".toList ++ "if (y) ;".toList) :=
  ⟨c9_complexity_monotone.1 truncContent _ (by decide),
   c9_complexity_monotone.2.1 " x; ".toList "if (y) ;".toList⟩

/-- C10: `find_dependencies` never raises (it is a total function); for an
absent entity it returns the empty dict (neither an `incoming` nor an
`outgoing` key), and for a present entity a dict with exactly the
`incoming` and `outgoing` keys. -/
theorem c10_find_dependencies_keys (g : CodeContextGraph.DiGraph) (e : String) :
    (hasNode g e = false → find_dependencies g e = [])
    ∧ (hasNode g e = true →
        ∃ inc outg, find_dependencies g e = [("incoming", inc), ("outgoing", outg)]) := by
  constructor
  · intro h
    simp [find_dependencies, h]
  · intro h
    simp only [find_dependencies, h, if_true]
    exact ⟨_, _, rfl⟩

/-- C10 witness: the theorem applied to the scenario graph at an absent and
at a present entity. -/
theorem c10_find_dependencies_witness :
    find_dependencies scenarioGraph "bar" = []
    ∧ ∃ inc outg, find_dependencies scenarioGraph "a.lang"
        = [("incoming", inc), ("outgoing", outg)] :=
  ⟨(c10_find_dependencies_keys scenarioGraph "bar").1 (by decide),
   (c10_find_dependencies_keys scenarioGraph "a.lang").2 (by decide)⟩

/-! Facts about the call lists the extractors record. -/

/-- The Python extractor never yields a function entity: any `FunctionDef`
in the tree triggers the `AttributeError` of line 558 and the error branch,
and a tree without one appends nothing to `functions`. -/
theorem python_functions_nil (input : Except String PythonCodeParser.PyNode) :
    (PythonCodeParser.parse_and_analyze input).functions = [] := by
  match input with
  | .error msg => rfl
  | .ok tree =>
    by_cases h : PythonCodeParser.containsFunctionDef tree = true <;>
      simp [PythonCodeParser.parse_and_analyze, h]

/-- Every entry of `rawCalls` is the empty string (the `match[0][:-1]` of
line 710 keeps one character of the identifier and then drops it). -/
theorem rawCalls_all_empty (body : List Char) : ∀ x ∈ rawCalls body, x = "" := by
  intro x hx
  simp only [rawCalls, List.mem_map] at hx
  obtain ⟨m, _, rfl⟩ := hx
  match m with
  | [] => rfl
  | c :: t => rfl

/-- A nonempty character list does not render to the empty string. -/
theorem asString_ne_empty {l : List Char} (h : l ≠ []) : l.asString ≠ "" := by
  cases l with
  | nil => exact absurd rfl h
  | cons c t =>
    intro hc
    simpa [List.asString] using congrArg String.data hc

/-- A successful function-declaration match captures a nonempty name. -/
theorem matchFunctionAt_name_ne_nil {cs : List Char}
    {r : List Char × List Char × List Char × List Char}
    (h : matchFunctionAt cs = some r) : r.1 ≠ [] := by
  unfold matchFunctionAt at h
  repeat' split at h
  all_goals first
    | exact Option.noConfusion h
    | (injection h with h; subst h; simp)

/-- Unfolding equation for the successor case of the function-declaration
scanner. -/
theorem findFunctionMatchesAux_succ (fuel : Nat) (cs : List Char) (pos : Nat) :
    findFunctionMatchesAux (fuel + 1) cs pos =
      match matchFunctionAt cs with
      | some (name, params, body, rest) =>
        ⟨pos, pos + (cs.length - rest.length), name, params, body⟩ ::
          findFunctionMatchesAux fuel rest (pos + (cs.length - rest.length))
      | none =>
        match cs with
        | [] => []
        | _ :: t => findFunctionMatchesAux fuel t (pos + 1) := rfl

/-- Every match collected by the function-declaration scanner has a
nonempty name. -/
theorem findFunctionMatchesAux_name_ne_nil :
    ∀ (fuel : Nat) (cs : List Char) (pos : Nat),
      ∀ m ∈ findFunctionMatchesAux fuel cs pos, m.name ≠ []
  | 0, _, _ => by
    intro m hm
    exact absurd hm (List.not_mem_nil m)
  | fuel + 1, cs, pos => by
    intro m hm
    rw [findFunctionMatchesAux_succ] at hm
    cases heq : matchFunctionAt cs with
    | some r =>
      obtain ⟨name, params, body, rest⟩ := r
      rw [heq] at hm
      rcases List.mem_cons.mp hm with rfl | hmem
      · exact matchFunctionAt_name_ne_nil heq
      · exact findFunctionMatchesAux_name_ne_nil fuel rest _ m hmem
    | none =>
      rw [heq] at hm
      match cs, hm with
      | [], hm => exact absurd hm (List.not_mem_nil m)
      | _ :: t, hm => exact findFunctionMatchesAux_name_ne_nil fuel t _ m hm

/-- A successful arrow-function match captures a nonempty name. -/
theorem matchArrowAt_name_ne_nil {cs : List Char}
    {r : List Char × List Char × List Char}
    (h : matchArrowAt cs = some r) : r.1 ≠ [] := by
  unfold matchArrowAt at h
  repeat' split at h
  all_goals first
    | exact Option.noConfusion h
    | (injection h with h; subst h; simp)

/-- Unfolding equation for the successor case of the arrow-function
scanner. -/
theorem findArrowMatchesAux_succ (fuel : Nat) (cs : List Char) (pos : Nat) :
    findArrowMatchesAux (fuel + 1) cs pos =
      match matchArrowAt cs with
      | some (name, _, rest) =>
        (pos, pos + (cs.length - rest.length), name) ::
          findArrowMatchesAux fuel rest (pos + (cs.length - rest.length))
      | none =>
        match cs with
        | [] => []
        | _ :: t => findArrowMatchesAux fuel t (pos + 1) := rfl

/-- Every match collected by the arrow-function scanner has a nonempty
name. -/
theorem findArrowMatchesAux_name_ne_nil :
    ∀ (fuel : Nat) (cs : List Char) (pos : Nat),
      ∀ m ∈ findArrowMatchesAux fuel cs pos, m.2.2 ≠ []
  | 0, _, _ => by
    intro m hm
    exact absurd hm (List.not_mem_nil m)
  | fuel + 1, cs, pos => by
    intro m hm
    rw [findArrowMatchesAux_succ] at hm
    cases heq : matchArrowAt cs with
    | some r =>
      obtain ⟨name, body, rest⟩ := r
      rw [heq] at hm
      rcases List.mem_cons.mp hm with rfl | hmem
      · exact matchArrowAt_name_ne_nil heq
      · exact findArrowMatchesAux_name_ne_nil fuel rest _ m hmem
    | none =>
      rw [heq] at hm
      match cs, hm with
      | [], hm => exact absurd hm (List.not_mem_nil m)
      | _ :: t, hm => exact findArrowMatchesAux_name_ne_nil fuel t _ m hm

/-- C8: every function record any modelled extractor produces has a
duplicate-free `calls` list that does not contain the function's own name.
(The JavaScript and C extractors deduplicate via `list(set(...))`; the name
can never appear because line 710/1012 collapses every detected call name to
the empty string while extracted function names are nonempty, and the C
extractor additionally filters its own name; the Python extractor produces
no function entities at all.) -/
theorem c8_calls_dedup_no_self :
    (∀ (content : String), ∀ f ∈ (JavaScriptCodeParser.parse_and_analyze content).functions,
        f.calls.Nodup ∧ f.name ∉ f.calls)
    ∧ (∀ (name : String) (body : List Char),
        (CCodeParser.cCalls name body).Nodup ∧ name ∉ CCodeParser.cCalls name body)
    ∧ (∀ input, (PythonCodeParser.parse_and_analyze input).functions = []) := by
  refine ⟨?_, ?_, python_functions_nil⟩
  · intro content f hf
    simp only [JavaScriptCodeParser.parse_and_analyze, List.mem_append, List.mem_map] at hf
    rcases hf with ⟨m, hm, rfl⟩ | ⟨m, hm, rfl⟩
    · refine ⟨List.nodup_dedup _, ?_⟩
      intro hmem
      simp only [mkFunctionInfo, jsCalls] at hmem
      have hname := findFunctionMatchesAux_name_ne_nil _ _ _ m hm
      exact asString_ne_empty hname
        (rawCalls_all_empty m.body _ (List.mem_dedup.mp hmem))
    · exact ⟨List.nodup_nil, by simp [mkArrowInfo]⟩
  · intro name body
    refine ⟨List.nodup_dedup _, ?_⟩
    intro h
    have h2 := (List.mem_filter.mp (List.mem_dedup.mp h)).2
    simp at h2

/-- C8 witness: the theorem applied to the extraction of `jsFooBar` and to a
concrete C extraction. -/
theorem c8_calls_witness :
    (((JavaScriptCodeParser.parse_and_analyze jsFooBar).functions.get ⟨0, by decide⟩).calls.Nodup
      ∧ ((JavaScriptCodeParser.parse_and_analyze jsFooBar).functions.get ⟨0, by decide⟩).name
        ∉ ((JavaScriptCodeParser.parse_and_analyze jsFooBar).functions.get ⟨0, by decide⟩).calls)
    ∧ ((CCodeParser.cCalls "f" " f(x); g(y); ".toList).Nodup
      ∧ "f" ∉ CCodeParser.cCalls "f" " f(x); g(y); ".toList) :=
  ⟨c8_calls_dedup_no_self.1 jsFooBar _ (by decide),
   c8_calls_dedup_no_self.2.1 "f" " f(x); g(y); ".toList⟩

/-! Counting lemmas for the aggregation loop. -/

/-- `lookupCount` on a cons cell. -/
theorem lookupCount_cons (x : String) (y : Nat) (l : List (String × Nat)) (q : String) :
    lookupCount ((x, y) :: l) q = if x == q then y else lookupCount l q := by
  by_cases h : (x == q) = true <;> simp [lookupCount, List.find?, h]

/-- `updateCount` bumps exactly the updated key's count. -/
theorem lookupCount_updateCount (m : List (String × Nat)) (k q : String) :
    lookupCount (updateCount m k) q
      = lookupCount m q + (if k == q then 1 else 0) := by
  induction m with
  | nil =>
    by_cases h : (k == q) = true <;> simp [updateCount, lookupCount_cons, lookupCount, h]
  | cons p rest ih =>
    obtain ⟨a, n⟩ := p
    by_cases hak : (a == k) = true
    · have hak' : a = k := by simpa using hak
      subst hak'
      by_cases haq : (a == q) = true <;>
        simp [updateCount, lookupCount_cons, hak, haq]
    · by_cases haq : (a == q) = true
      · have haq' : a = q := by simpa using haq
        have hkq : ¬k = q := fun hkq => hak (by simp [haq', hkq])
        simp [updateCount, lookupCount_cons, hak, haq, ih, hkq]
      · simp [updateCount, lookupCount_cons, hak, haq, ih]

/-- The per-file step always records the file's language in the breakdown.
-/
theorem processFile_breakdown (az : FileData → Option (List ParsedFunction × List ParsedClass))
    (maxSize : Nat) (r : AnalysisResults) (fd : FileData) :
    (processFile az maxSize r fd).language_breakdown
      = updateCount r.language_breakdown fd.language := by
  simp only [processFile]
  split
  · rfl
  · cases haz : az fd with
    | none => rfl
    | some v => obtain ⟨fns, cls⟩ := v; simp [haz]

/-- The per-file step increments `files_analyzed` exactly for a
non-skipped, successfully analyzed file. -/
theorem processFile_files_analyzed
    (az : FileData → Option (List ParsedFunction × List ParsedClass))
    (maxSize : Nat) (r : AnalysisResults) (fd : FileData) :
    (processFile az maxSize r fd).files_analyzed
      = r.files_analyzed
        + (if (!(fd.language == "unknown" || decide (maxSize < fd.content.length))
              && (az fd).isSome) = true then 1 else 0) := by
  simp only [processFile]
  split
  case isTrue hcond => simp [hcond]
  case isFalse hcond =>
    cases haz : az fd with
    | none => simp [hcond, haz]
    | some v =>
      obtain ⟨fns, cls⟩ := v
      simp [hcond, haz]

/-- Folding the per-file loop adds one breakdown count per scanned file of
the queried language, skipped or not. -/
theorem foldl_processFile_breakdown
    (az : FileData → Option (List ParsedFunction × List ParsedClass)) (maxSize : Nat) :
    ∀ (files : List FileData) (r : AnalysisResults) (q : String),
      lookupCount ((files.foldl (processFile az maxSize) r).language_breakdown) q
        = lookupCount r.language_breakdown q
          + (files.filter (fun fd => fd.language == q)).length := by
  intro files
  induction files with
  | nil => intro r q; simp
  | cons fd rest ih =>
    intro r q
    simp only [List.foldl_cons, List.filter_cons]
    rw [ih, processFile_breakdown, lookupCount_updateCount]
    by_cases h : (fd.language == q) = true
    · simp [h]
      omega
    · simp [h]

/-- Folding the per-file loop counts exactly the non-skipped successfully
analyzed files. -/
theorem foldl_processFile_files_analyzed
    (az : FileData → Option (List ParsedFunction × List ParsedClass)) (maxSize : Nat) :
    ∀ (files : List FileData) (r : AnalysisResults),
      (files.foldl (processFile az maxSize) r).files_analyzed
        = r.files_analyzed
          + (files.filter (fun fd =>
              !(fd.language == "unknown" || decide (maxSize < fd.content.length))
                && (az fd).isSome)).length := by
  intro files
  induction files with
  | nil => intro r; simp
  | cons fd rest ih =>
    intro r
    simp only [List.foldl_cons, List.filter_cons]
    rw [ih, processFile_files_analyzed]
    by_cases h : (!(fd.language == "unknown" || decide (maxSize < fd.content.length))
        && (az fd).isSome) = true
    · simp only [if_pos h, List.length_cons]
      omega
    · simp only [if_neg h]
      omega

/-- C5 as amended: unknown-language and oversized files are skipped, are
excluded from the analyzed-file count (which counts exactly the non-skipped
files whose per-file analysis returns a truthy result), and contribute no
entities; but they are counted in `language_breakdown`, which tallies every
scanned file including the skipped ones (line 73 runs before the skip of
lines 76-77). -/
theorem c5_amended_skip_counts
    (az : FileData → Option (List ParsedFunction × List ParsedClass))
    (maxSize : Nat) (files : List FileData) (lang : String) :
    lookupCount (analyze_code_source az maxSize files).language_breakdown lang
      = (files.filter (fun fd => fd.language == lang)).length
    ∧ (analyze_code_source az maxSize files).files_analyzed
      = (files.filter (fun fd =>
          !(fd.language == "unknown" || decide (maxSize < fd.content.length))
            && (az fd).isSome)).length := by
  constructor
  · have hb : (analyze_code_source az maxSize files).language_breakdown
        = ((files.foldl (processFile az maxSize) initResults)).language_breakdown := rfl
    rw [hb, foldl_processFile_breakdown]
    simp [initResults, lookupCount]
  · have hb : (analyze_code_source az maxSize files).files_analyzed
        = ((files.foldl (processFile az maxSize) initResults)).files_analyzed := rfl
    rw [hb, foldl_processFile_files_analyzed]
    simp [initResults]

/-! Soundness of the path search behind `find_path`. -/

/-- Reachability extends along one further edge. -/
theorem CodeContextGraph.Reach.snoc {g : CodeContextGraph.DiGraph} {w u v : String} (h : Reach g u v) :
    w ∈ successors g v → Reach g u w := by
  induction h with
  | refl x =>
    intro e
    exact .step e (.refl w)
  | step a r ih =>
    intro e
    exact .step a (ih e)

/-- The endpoint of a queued reversed walk is reachable from the source. -/
theorem CodeContextGraph.RPath.head_reach {g : CodeContextGraph.DiGraph} {source : String}
    {q : List String} (h : RPath g source q) :
    ∀ {u : String} {p : List String}, q = u :: p → Reach g source u := by
  induction h with
  | base =>
    intro u p hq
    cases hq
    exact .refl source
  | cons r e ih =>
    intro u p hq
    cases hq
    exact (ih rfl).snoc e

/-- Unfolding equation for `bfsAux` at a nonempty queued path. -/
theorem bfsAux_cons (g : CodeContextGraph.DiGraph) (target : String) (fuel : Nat)
    (u : String) (t : List String) (queue : List (List String)) (visited : List String) :
    bfsAux g target (fuel + 1) ((u :: t) :: queue) visited
      = if u == target then some ((u :: t).reverse)
        else bfsAux g target fuel
          (queue ++ ((successors g u).filter (fun v => !(visited.contains v))).map
            (fun v => v :: u :: t))
          (visited ++ (successors g u).filter (fun v => !(visited.contains v))) := rfl

/-- If the search returns a path, the target is reachable from the source:
every queued path is a real walk from the source, and so is every path the
expansion step enqueues. -/
theorem bfsAux_sound (g : CodeContextGraph.DiGraph) (source target : String) :
    ∀ (fuel : Nat) (queue : List (List String)) (visited : List String)
      (res : List String),
      (∀ p ∈ queue, RPath g source p) →
      bfsAux g target fuel queue visited = some res → Reach g source target
  | 0, _, _, _, _, h => by exact Option.noConfusion h
  | _ + 1, [], _, _, _, h => by exact Option.noConfusion h
  | fuel + 1, [] :: queue, visited, res, hq, h => by
    exact absurd (hq [] (List.mem_cons_self _ _)) (fun hr => by cases hr)
  | fuel + 1, (u :: t) :: queue, visited, res, hq, h => by
    rw [bfsAux_cons] at h
    by_cases hu : (u == target) = true
    · have hut : u = target := by simpa using hu
      exact hut ▸ RPath.head_reach (hq (u :: t) (List.mem_cons_self _ _)) rfl
    · rw [if_neg hu] at h
      refine bfsAux_sound g source target fuel _ _ res ?_ h
      intro q hqmem
      rcases List.mem_append.mp hqmem with hql | hqr
      · exact hq q (List.mem_cons_of_mem _ hql)
      · obtain ⟨v, hv, rfl⟩ := List.mem_map.mp hqr
        exact RPath.cons (hq (u :: t) (List.mem_cons_self _ _)) (List.mem_filter.mp hv).1

/-- If `shortest_path` returns a path, the target is reachable. -/
theorem shortest_path_sound {g : CodeContextGraph.DiGraph} {s t : String}
    {p : List String} (h : shortest_path g s t = some p) : Reach g s t := by
  unfold shortest_path at h
  by_cases hst : (s == t) = true
  · have : s = t := by simpa using hst
    subst this
    exact Reach.refl s
  · rw [if_neg hst] at h
    refine bfsAux_sound g s t _ _ _ _ ?_ h
    intro q hq
    rcases List.mem_singleton.mp hq with rfl
    exact RPath.base

/-- In an edgeless graph reachability is trivial. -/
theorem reach_no_edges {g : CodeContextGraph.DiGraph} (he : g.edges = []) :
    ∀ {u v : String}, Reach g u v → u = v := by
  intro u v h
  induction h with
  | refl _ => rfl
  | step hs _ _ =>
    simp [successors, he] at hs

/-- C7: `find_path` (a total function, so it cannot raise) returns the
one-node path for a present node queried against itself, the empty sequence
whenever the target is unreachable from the source, and the empty sequence
whenever either endpoint is absent. -/
theorem c7_find_path_contract (g : CodeContextGraph.DiGraph) (a b : String) :
    (hasNode g a = true → find_path g a a = [(a, getNodeAttrs g a)])
    ∧ (¬ Reach g a b → find_path g a b = [])
    ∧ (hasNode g a = false ∨ hasNode g b = false → find_path g a b = []) := by
  refine ⟨?_, ?_, ?_⟩
  · intro h
    unfold find_path
    rw [h]
    simp only [Bool.and_self, if_true]
    unfold shortest_path
    rw [if_pos (by simp)]
    simp
  · intro h
    unfold find_path
    by_cases hab : (hasNode g a && hasNode g b) = true
    · rw [if_pos hab]
      cases hsp : shortest_path g a b with
      | some p => exact absurd (shortest_path_sound hsp) h
      | none => rfl
    · rw [if_neg hab]
  · intro h
    unfold find_path
    have hcond : (hasNode g a && hasNode g b) = false := by
      rcases h with h | h <;> simp [h]
    rw [hcond]
    simp

/-- C7 witness: the theorem applied to the two-node edgeless graph, for the
self query at `x`, the disconnected pair `(x, y)`, and an absent endpoint.
-/
theorem c7_find_path_witness :
    find_path twoNodeGraph "x" "x" = [("x", getNodeAttrs twoNodeGraph "x")]
    ∧ find_path twoNodeGraph "x" "y" = []
    ∧ find_path twoNodeGraph "x" "z" = [] :=
  ⟨(c7_find_path_contract twoNodeGraph "x" "x").1 (by decide),
   (c7_find_path_contract twoNodeGraph "x" "y").2.1 (fun h =>
      absurd (reach_no_edges rfl h) (by decide)),
   (c7_find_path_contract twoNodeGraph "x" "z").2.2 (Or.inr (by decide))⟩

/-! Round-trip fidelity of graph persistence. -/

/-- `hasNode` decides membership in the node-id list. -/
theorem hasNode_iff {g : CodeContextGraph.DiGraph} {i : String} :
    hasNode g i = true ↔ i ∈ g.nodes.map Prod.fst := by
  simp only [hasNode, List.any_eq_true, List.mem_map, beq_iff_eq]

/-- `hasEdge` decides membership in the endpoint-pair list. -/
theorem hasEdge_iff {g : CodeContextGraph.DiGraph} {u v : String} :
    hasEdge g u v = true ↔ (u, v) ∈ g.edges.map (fun e => (e.1, e.2.1)) := by
  simp only [hasEdge, List.any_eq_true, List.mem_map, Bool.and_eq_true, beq_iff_eq]
  constructor
  · rintro ⟨e, he, h1, h2⟩
    exact ⟨e, he, by rw [h1, h2]⟩
  · rintro ⟨e, he, hp⟩
    cases hp
    exact ⟨e, he, rfl, rfl⟩

/-- Looking a key up past entries that do not carry it. -/
theorem lookupAttr_append_of_absent {a : CodeContextGraph.Attrs} {k : String}
    (h : ∀ kv ∈ a, kv.1 ≠ k) (rest : CodeContextGraph.Attrs) :
    lookupAttr (a ++ rest) k = lookupAttr rest k := by
  induction a with
  | nil => rfl
  | cons kv l ih =>
    have hk : (kv.1 == k) = false := by
      simpa using h kv (List.mem_cons_self _ _)
    simp only [List.cons_append, lookupAttr, List.find?]
    rw [hk]
    exact ih (fun kv hkv => h kv (List.mem_cons_of_mem _ hkv))

/-- Filtering away a reserved key keeps attribute entries that never use
it. -/
theorem filter_ne_key_eq_self {a : CodeContextGraph.Attrs} {k : String}
    (h : ∀ kv ∈ a, kv.1 ≠ k) :
    a.filter (fun kv => !(kv.1 == k)) = a := by
  refine List.filter_eq_self.mpr ?_
  intro kv hkv
  simpa using h kv hkv

/-- Decoding inverts the node-object encoding when no attribute is named
`id`. -/
theorem decodeNode_encode {i : String} {a : CodeContextGraph.Attrs}
    (h : ∀ kv ∈ a, kv.1 ≠ "id") :
    decodeNode (a ++ [("id", .str i)]) = some (i, a) := by
  unfold decodeNode
  rw [lookupAttr_append_of_absent h]
  show (some (i, (a ++ [("id", AttrVal.str i)]).filter (fun kv => !(kv.1 == "id"))) : Option _) = _
  rw [List.filter_append, filter_ne_key_eq_self h]
  simp

/-- Decoding inverts the link-object encoding when no edge attribute is
named `source` or `target`. -/
theorem decodeLink_encode {u v : String} {a : CodeContextGraph.Attrs}
    (h : ∀ kv ∈ a, kv.1 ≠ "source" ∧ kv.1 ≠ "target") :
    decodeLink (a ++ [("source", .str u), ("target", .str v)]) = some (u, v, a) := by
  unfold decodeLink
  rw [lookupAttr_append_of_absent (fun kv hkv => (h kv hkv).1)]
  have ht : lookupAttr (a ++ [("source", AttrVal.str u), ("target", AttrVal.str v)]) "target"
      = some (.str v) := by
    rw [lookupAttr_append_of_absent (fun kv hkv => (h kv hkv).2)]
    rfl
  rw [ht]
  show (some (u, v, (a ++ [("source", AttrVal.str u), ("target", AttrVal.str v)]).filter
      (fun kv => !(kv.1 == "source") && !(kv.1 == "target"))) : Option _) = _
  rw [List.filter_append]
  have ha : a.filter (fun kv => !(kv.1 == "source") && !(kv.1 == "target")) = a := by
    refine List.filter_eq_self.mpr ?_
    intro kv hkv
    simp [(h kv hkv).1, (h kv hkv).2]
  rw [ha]
  simp

/-- `mapM decodeNode` inverts the node-list encoding. -/
theorem mapM_decodeNode (ns : List (String × CodeContextGraph.Attrs))
    (h : ∀ n ∈ ns, ∀ kv ∈ n.2, kv.1 ≠ "id") :
    ((ns.map (fun kv => kv.2 ++ [("id", AttrVal.str kv.1)])).mapM decodeNode) = some ns := by
  induction ns with
  | nil => rfl
  | cons n rest ih =>
    obtain ⟨i, a⟩ := n
    simp only [List.map_cons, List.mapM_cons]
    rw [decodeNode_encode (h _ (List.mem_cons_self _ _))]
    rw [ih (fun n hn => h n (List.mem_cons_of_mem _ hn))]
    rfl

/-- `mapM decodeLink` inverts the link-list encoding. -/
theorem mapM_decodeLink (ls : List (String × String × CodeContextGraph.Attrs))
    (h : ∀ e ∈ ls, ∀ kv ∈ e.2.2, kv.1 ≠ "source" ∧ kv.1 ≠ "target") :
    ((ls.map (fun e => e.2.2 ++ [("source", AttrVal.str e.1), ("target", AttrVal.str e.2.1)])).mapM
        decodeLink) = some ls := by
  induction ls with
  | nil => rfl
  | cons e rest ih =>
    obtain ⟨u, v, a⟩ := e
    simp only [List.map_cons, List.mapM_cons]
    rw [decodeLink_encode (h _ (List.mem_cons_self _ _))]
    rw [ih (fun e he => h e (List.mem_cons_of_mem _ he))]
    rfl

/-- Folding `addNode` over fresh nodes appends them in order. -/
theorem foldl_addNode_fresh :
    ∀ (ns : List (String × CodeContextGraph.Attrs)) (g : CodeContextGraph.DiGraph),
      ((g.nodes.map Prod.fst) ++ ns.map Prod.fst).Nodup →
      ns.foldl (fun g n => g.addNode n.1 n.2) g = ⟨g.nodes ++ ns, g.edges⟩
  | [], g, _ => by simp
  | (i, a) :: rest, g, h => by
    simp only [List.map_cons] at h
    have hni : hasNode g i = false := by
      rw [← Bool.not_eq_true, hasNode_iff]
      exact fun him => (List.disjoint_of_nodup_append h) him (List.mem_cons_self _ _)
    have hstep : CodeContextGraph.DiGraph.addNode g i a
        = ⟨g.nodes ++ [(i, a)], g.edges⟩ := by
      unfold CodeContextGraph.DiGraph.addNode
      rw [hni]
      simp
    simp only [List.foldl_cons]
    rw [hstep, foldl_addNode_fresh rest ⟨g.nodes ++ [(i, a)], g.edges⟩ (by
      simpa [List.append_assoc] using h)]
    simp

/-- Folding `addEdge` over fresh edges between present nodes appends them in
order and leaves the node list unchanged. -/
theorem foldl_addEdge_fresh :
    ∀ (ls : List (String × String × CodeContextGraph.Attrs)) (g : CodeContextGraph.DiGraph),
      (∀ e ∈ ls, hasNode g e.1 = true ∧ hasNode g e.2.1 = true) →
      ((g.edges.map (fun e => (e.1, e.2.1))) ++ ls.map (fun e => (e.1, e.2.1))).Nodup →
      ls.foldl (fun g e => g.addEdge e.1 e.2.1 e.2.2) g = ⟨g.nodes, g.edges ++ ls⟩
  | [], g, _, _ => by simp
  | (u, v, a) :: rest, g, hep, h => by
    simp only [List.map_cons] at h
    have hu := (hep _ (List.mem_cons_self _ _)).1
    have hv := (hep _ (List.mem_cons_self _ _)).2
    have hne : hasEdge g u v = false := by
      rw [← Bool.not_eq_true, hasEdge_iff]
      exact fun him => (List.disjoint_of_nodup_append h) him (List.mem_cons_self _ _)
    have hstep : CodeContextGraph.DiGraph.addEdge g u v a
        = ⟨g.nodes, g.edges ++ [(u, v, a)]⟩ := by
      unfold CodeContextGraph.DiGraph.addEdge ensureNode
      rw [hu]
      simp only [if_true]
      rw [hv]
      simp only [if_true]
      rw [hne]
      simp
    simp only [List.foldl_cons]
    rw [hstep, foldl_addEdge_fresh rest ⟨g.nodes, g.edges ++ [(u, v, a)]⟩
      (fun e he => hep e (List.mem_cons_of_mem _ he))
      (by simpa [List.append_assoc] using h)]
    simp

/-- C6: serializing a well-formed graph to the node-link document and
deserializing it back reproduces the graph exactly: same node list with the
same attributes and same edge list with the same relationship labels.
(`json.dump`/`json.load` round-trip the document itself; the reserved-key
and uniqueness hypotheses in `WFGraph` hold for every graph `networkx` can
serialize and for every attribute this codebase writes.) -/
theorem c6_serialize_round_trip (g : CodeContextGraph.DiGraph) (h : WFGraph g) :
    node_link_graph (node_link_data g) = some g := by
  obtain ⟨h1, h2, h3, h4, h5⟩ := h
  unfold node_link_graph node_link_data
  simp only []
  rw [mapM_decodeNode g.nodes h4, mapM_decodeLink g.edges h5]
  simp only [Option.bind_eq_bind, Option.some_bind]
  rw [foldl_addNode_fresh g.nodes CodeContextGraph.DiGraph.empty
    (by simpa [CodeContextGraph.DiGraph.empty] using h1)]
  rw [foldl_addEdge_fresh g.edges ⟨CodeContextGraph.DiGraph.empty.nodes ++ g.nodes,
      CodeContextGraph.DiGraph.empty.edges⟩ (fun e he => h3 e he)
    (by simpa [CodeContextGraph.DiGraph.empty] using h2)]
  simp [CodeContextGraph.DiGraph.empty]

/-- C6 witness: the theorem applied to a concrete two-node one-edge
attributed graph (the empty graph and one-node graphs are covered by the
same theorem). -/
theorem c6_round_trip_witness :
    node_link_graph (node_link_data rtGraph) = some rtGraph :=
  c6_serialize_round_trip rtGraph
    (by
      unfold WFGraph
      refine ⟨by decide, by decide, by decide, by decide, by decide⟩)

/-- C2 as amended: extraction is total (modelled as total functions, and
every handler in the source converts exceptions into an `error` field): the
JavaScript extractor never populates `error`, a Python parse failure always
populates `error`, and the Python extractor produces no function entities at
all (any `FunctionDef` triggers the `node.parent` `AttributeError` of line
558, which lands in the error branch); but, per the counterexample, a
recognized-language file with no matched constructs yields empty lists with
no error. -/
theorem c2_amended_extraction_total :
    (∀ content : String, (JavaScriptCodeParser.parse_and_analyze content).error = none)
    ∧ (∀ msg : String,
        ((PythonCodeParser.parse_and_analyze (.error msg)).error).isSome = true)
    ∧ (∀ input, (PythonCodeParser.parse_and_analyze input).functions = []) :=
  ⟨fun _ => rfl, fun _ => rfl, python_functions_nil⟩

end CodingAssistant
